import Mathlib

/-
Verification development for the mcpd Python SDK.

Shallow embedding of:
  * src/mcpd/type_converter.py       (TypeConverter)
  * src/mcpd_sdk/function_builder.py (FunctionBuilder and the generated functions)
  * src/mcpd_sdk/dynamic_caller.py   (DynamicCaller / ServerProxy)
  * src/mcpd/mcpd_client.py          (has_tool, is_server_healthy, HealthStatus)
plus two components that exist in the repository but whose implementation
files are not in the source tree sampled here (only their unit tests and
the spec describe them): the per-server health cache and the filtered,
health-gated tool-resolution entry point.  Those two are modelled from the
spec (marked "Modelled from the spec:" below).

Python values are embedded as the inductive `JVal` (JSON-ish values; the
absent-marker `None` is `JVal.null`).  JSON-schema fragments are embedded
as `SchemaF`, a record of exactly the dictionary keys the source consults
("type", "enum", "items", "anyOf", "description").  Python type
annotation values are embedded as `PyType`; the `|` operator on types
flattens and de-duplicates its arguments (keeping first occurrences),
matching `types.UnionType` / `typing.Union`.

`JVal` and `PyType` use mutual list spines (`JList`, `JObjL`, `PyList`)
so that decidable equality can be derived; plain `List` views are
provided by `ofList` / `toList`.
-/

mutual

/-- Embedded Python/JSON values. `null` is Python `None`. -/
inductive JVal where
  | null : JVal
  | boolean : Bool → JVal
  | num : Int → JVal
  | str : String → JVal
  | arr : JList → JVal
  | obj : JObjL → JVal

/-- Spine of a JSON array. -/
inductive JList where
  | nil : JList
  | cons : JVal → JList → JList

/-- Spine of a JSON object (ordered key/value pairs). -/
inductive JObjL where
  | nil : JObjL
  | cons : String → JVal → JObjL → JObjL

end

deriving instance DecidableEq for JVal
deriving instance DecidableEq for JList
deriving instance DecidableEq for JObjL

/-- A value is hashable in Python iff it is a scalar (not a list / dict).
Decides whether typing's `Literal` de-duplication runs (all hashable) or
is skipped (typing swallows the unhashable `TypeError` since CPython
3.9.1) in `json_type_to_python_type`. -/
def JVal.hashable : JVal → Bool
  | .arr _ => false
  | .obj _ => false
  | _ => true

/-- A JSON-schema fragment, holding exactly the dictionary keys the source
reads: `node type? enum? items? anyOf? description?`. -/
inductive SchemaF where
  | node : Option String → Option (List JVal) → Option SchemaF →
           Option (List SchemaF) → Option String → SchemaF

mutual

/-- Embedded Python type-annotation values produced by `TypeConverter`. -/
inductive PyType where
  | pyStr : PyType
  | pyInt : PyType
  | pyFloat : PyType
  | pyBool : PyType
  | pyAny : PyType
  | pyNone : PyType
  | lit : List JVal → PyType
  | listOf : PyType → PyType
  | dictOf : PyType → PyType → PyType
  | unionOf : PyList → PyType

/-- Spine of a union's argument list. -/
inductive PyList where
  | nil : PyList
  | cons : PyType → PyList → PyList

end

deriving instance DecidableEq for PyType
deriving instance DecidableEq for PyList

/-- View a union-argument spine as a plain list. -/
def PyList.toList : PyList → List PyType
  | .nil => []
  | .cons t ts => t :: ts.toList

/-- Build a union-argument spine from a plain list. -/
def PyList.ofList : List PyType → PyList
  | [] => .nil
  | t :: ts => .cons t (PyList.ofList ts)

/-- De-duplicate keeping the first occurrence of each element, carrying
the set of elements already emitted — as Python's `dict.fromkeys` /
`typing._deduplicate` do. -/
def dedupFirstAux [DecidableEq α] (seen : List α) : List α → List α
  | [] => []
  | x :: xs =>
    if x ∈ seen then dedupFirstAux seen xs
    else x :: dedupFirstAux (x :: seen) xs

/-- De-duplicate a list keeping the first occurrence of each element. -/
def dedupFirst [DecidableEq α] (l : List α) : List α :=
  dedupFirstAux [] l

/-- The argument list of a type under Python's union flattening:
a union contributes its arguments, anything else contributes itself. -/
def unionArgs : PyType → List PyType
  | .unionOf ts => ts.toList
  | t => [t]

/-- Rebuild a type from flattened union arguments: a single argument
collapses to itself (as `X | X` is `X` in Python). -/
def mkUnion : List PyType → PyType
  | [t] => t
  | ts => .unionOf (PyList.ofList ts)

/-- Python's `a | b` on type-annotation values: flatten both sides,
de-duplicate keeping first occurrences. -/
def pyOr (a b : PyType) : PyType :=
  mkUnion (dedupFirst (unionArgs a ++ unionArgs b))

/-- The Python exception that can escape `TypeConverter`: the IndexError
from `union_types[0]` on an empty `anyOf` list.  (`Literal` construction
never raises here: typing swallows the unhashable de-duplication
TypeError since CPython 3.9.1.) -/
inductive PyErr where
  | indexErr : PyErr
deriving DecidableEq

mutual

/-- Embeds `TypeConverter.parse_schema_type`: `anyOf` is checked first and
folds `|` over the alternatives' types left-to-right (`union_types[0]`
raises IndexError on an empty list); otherwise dispatch on `type`;
a fragment with neither key yields `Any`. -/
def parse_schema_type : SchemaF → Except PyErr PyType
  | .node ty en it ao _ =>
    match ao with
    | some alts =>
      match parseAnyOfAlts alts with
      | .error e => .error e
      | .ok [] => .error .indexErr
      | .ok (t :: ts) => .ok (ts.foldl pyOr t)
    | none =>
      match ty with
      | some jt => json_type_to_python_type jt en it
      | none => .ok .pyAny
termination_by s => sizeOf s

/-- The recursion of `parse_schema_type` over the `anyOf` list. -/
def parseAnyOfAlts : List SchemaF → Except PyErr (List PyType)
  | [] => .ok []
  | s :: rest =>
    match parse_schema_type s with
    | .error e => .error e
    | .ok t =>
      match parseAnyOfAlts rest with
      | .error e => .error e
      | .ok ts => .ok (t :: ts)
termination_by l => sizeOf l

/-- Embeds `TypeConverter.json_type_to_python_type`.  The source passes the
whole fragment dictionary; only its "enum" and "items" keys are read, so
they are taken as arguments here.  For `"string"` with an `enum`,
`Literal[tuple(values)]` always succeeds: with every value hashable,
typing de-duplicates by value and type keeping first occurrences; with
an unhashable value typing swallows the de-duplication TypeError (since
CPython 3.9.1) and keeps the values as listed, so the source's
`except TypeError` fallback is dead code. -/
def json_type_to_python_type (jt : String) (en : Option (List JVal))
    (it : Option SchemaF) : Except PyErr PyType :=
  if jt = "string" then
    match en with
    | some vals =>
      if vals.all JVal.hashable then .ok (.lit (dedupFirst vals))
      else .ok (.lit vals)
    | none => .ok .pyStr
  else if jt = "number" then .ok (pyOr .pyInt .pyFloat)
  else if jt = "integer" then .ok .pyInt
  else if jt = "boolean" then .ok .pyBool
  else if jt = "array" then
    match it with
    | some itemsSchema =>
      match parse_schema_type itemsSchema with
      | .error e => .error e
      | .ok t => .ok (.listOf t)
    | none => .ok (.listOf .pyAny)
  else if jt = "object" then .ok (.dictOf .pyStr .pyAny)
  else .ok .pyAny
termination_by sizeOf it

end

/-- Python `is None` test on an embedded value. -/
def JVal.isNull : JVal → Bool
  | .null => true
  | _ => false

/-- The "description" key of a schema fragment. -/
def SchemaF.descKey : SchemaF → Option String
  | .node _ _ _ _ d => d

/-- A tool schema as consumed by `FunctionBuilder`: the "name",
"description" and "inputSchema" ("properties" insertion-ordered,
"required") keys of the tool-definition dictionary.  Missing
"description" / "properties" / "required" keys are embedded as
`none` / `[]` / `[]`, matching the source's `.get(..., default)` reads;
the "name" key is taken as present (its absence only reaches the
generic error wrap in `create_function_from_schema`). -/
structure ToolSchema where
  name : String
  description : Option String
  properties : List (String × SchemaF)
  required : List String

/-- Failure of a call to a generated function. -/
inductive CallErr where
  /-- Python's own `TypeError` from argument binding: an unexpected or
  repeated keyword, or a required (no-default) parameter not supplied. -/
  | pythonTypeErr : CallErr
  /-- The generated validation block's
  `McpdError("Missing required parameters: ...")`, carrying the list. -/
  | missingRequired : List String → CallErr
deriving DecidableEq

/-- The delegated invocation a generated function hands to
`client._perform_call(server_name, tool_name, params)`. -/
structure DelegatedCall where
  server : String
  tool : String
  params : List (String × JVal)
deriving DecidableEq

/-- The parameter signature order built by
`FunctionBuilder._build_function_code`: required names first, then
optional names, each group in `properties` insertion order
(`required_param_names + optional_param_names`). -/
def sorted_param_names (s : ToolSchema) : List String :=
  ((s.properties.map Prod.fst).filter (fun p => s.required.contains p)) ++
  ((s.properties.map Prod.fst).filter (fun p => !(s.required.contains p)))

/-- Required names that actually are parameters (appear in properties). -/
def requiredParamNames (s : ToolSchema) : List String :=
  (s.properties.map Prod.fst).filter (fun p => s.required.contains p)

/-- Keyword-argument lists bind each name at most once. -/
def distinctKeys : List (String × JVal) → Bool
  | [] => true
  | (k, _) :: rest => !(rest.any (fun kv => kv.fst == k)) && distinctKeys rest

/-- Python's binding of a keyword-argument call to the generated
signature `def f(req1, ..., opt1=None, ...)`: an unknown or repeated
keyword, or an unsupplied required parameter, raises `TypeError` before
the body runs; otherwise every parameter is bound, optional ones
defaulting to `None`. -/
def bindCallArgs (s : ToolSchema) (args : List (String × JVal)) :
    Except CallErr (List (String × JVal)) :=
  if args.any (fun kv => !((sorted_param_names s).contains kv.fst)) then
    .error .pythonTypeErr
  else if !(distinctKeys args) then
    .error .pythonTypeErr
  else if (requiredParamNames s).any (fun p => (args.lookup p).isNone) then
    .error .pythonTypeErr
  else
    .ok ((sorted_param_names s).map (fun p => (p, (args.lookup p).getD JVal.null)))

/-- The `missing_params` list the generated validation block computes
over the bound locals: required names (as `list(set(required))`; set
enumeration order is embedded as first-occurrence de-duplication — every
claim checked below depends only on membership) that are unbound or
bound to `None`. -/
def missingParamsOf (s : ToolSchema) (bound : List (String × JVal)) :
    List String :=
  (dedupFirst s.required).filter
    (fun p => ((bound.lookup p).getD JVal.null).isNull)

/-- The generated function body from
`FunctionBuilder._build_function_code`: over `list(set(required))` it
collects every name that is unbound or bound to `None` into
`missing_params` and raises `McpdError` when that list is non-empty;
otherwise it builds `params` over `properties` insertion order, keeping
exactly the parameters whose bound value is not `None`, and delegates to
`client._perform_call`.  (`list(set(...))` enumerates in unspecified
order; it is embedded as first-occurrence de-duplication — every claim
checked below depends only on membership.) -/
def generatedFunBody (s : ToolSchema) (server : String)
    (bound : List (String × JVal)) : Except CallErr DelegatedCall :=
  let missing := missingParamsOf s bound
  if missing.isEmpty then
    .ok ⟨server, s.name, s.properties.filterMap (fun kv =>
      match bound.lookup kv.fst with
      | some v => if v.isNull then none else some (kv.fst, v)
      | none => none)⟩
  else
    .error (.missingRequired missing)

/-- A keyword call to the generated function: Python argument binding,
then the generated body. -/
def callGenerated (s : ToolSchema) (server : String)
    (args : List (String × JVal)) : Except CallErr DelegatedCall :=
  match bindCallArgs s args with
  | .error e => .error e
  | .ok bound => generatedFunBody s server bound

/-- Embeds `FunctionBuilder._create_annotations`: each property's parsed
type, optional ones as `type | None`, then `return: Any`.  An exception
from the type converter propagates (it is caught only by
`create_function_from_schema`'s generic wrap). -/
def create_annots (s : ToolSchema) : Except PyErr (List (String × PyType)) :=
  match annotsOfProps s.required s.properties with
  | .error e => .error e
  | .ok ps => .ok (ps ++ [("return", PyType.pyAny)])
where
  annotsOfProps (required : List String) :
      List (String × SchemaF) → Except PyErr (List (String × PyType))
    | [] => .ok []
    | (p, frag) :: rest =>
      match parse_schema_type frag with
      | .error e => .error e
      | .ok t =>
        match annotsOfProps required rest with
        | .error e => .error e
        | .ok ts =>
          .ok ((p, if required.contains p then t else pyOr t .pyNone) :: ts)

/-- Embeds `FunctionBuilder._create_docstring`. -/
def create_docstring (s : ToolSchema) : String :=
  let description := s.description.getD "No description provided"
  let argLines :=
    if s.properties.isEmpty then []
    else "" :: "Args:" :: s.properties.map (fun kv =>
      let paramDesc := kv.snd.descKey.getD "No description provided"
      let requiredText := if s.required.contains kv.fst then "" else " (optional)"
      "    " ++ kv.fst ++ ": " ++ paramDesc ++ requiredText)
  String.intercalate "\n" ((description :: argLines) ++
    ["", "Returns:", "    Any: Function execution result", "",
     "Raises:", "    McpdError: If required parameters are missing or API call fails"])

/-- A generated callable with its attached metadata.  `schema` and
`serverName` are the values captured when the function text was
compiled; they determine the callable's behaviour (`GeneratedFun.callWith`). -/
structure GeneratedFun where
  funName : String
  docstring : String
  annots : List (String × PyType)
  schema : ToolSchema
  serverName : String

/-- Invoking a generated callable with keyword arguments. -/
def GeneratedFun.callWith (f : GeneratedFun) (args : List (String × JVal)) :
    Except CallErr DelegatedCall :=
  callGenerated f.schema f.serverName args

/-- The error taxonomy of `src/mcpd/exceptions.py` (every class below is
a subclass of `McpdError`, as the package exports and the client's
`except McpdError` handlers rely on). -/
inductive McpdErr where
  | connectionError : String → McpdErr
  | timeoutError : String → String → Nat → McpdErr
  | authenticationError : String → McpdErr
  | serverNotFoundError : String → String → McpdErr
  | serverUnhealthyError : String → String → String → McpdErr
  | toolExecutionError : String → String → String → McpdErr
  | mcpdError : String → McpdErr
deriving DecidableEq

/-- Building the compiled function and its metadata
(`_build_function_code` + `compile`/`exec` + `_create_annotations`):
only the annotation step can fail for a well-named schema. -/
def buildFunction (s : ToolSchema) (server : String) :
    Except PyErr GeneratedFun :=
  match create_annots s with
  | .error e => .error e
  | .ok annots =>
    .ok ⟨server ++ "__" ++ s.name, create_docstring s, annots, s, server⟩

/-- The `FunctionBuilder._function_cache`: key to the cached compiled
function (the source stores `compiled_code`, `annotations` and a
rebuilder closure; re-executing them reproduces exactly the originally
built function, which is what the entry embeds). -/
structure FunctionBuilderState where
  cache : List (String × GeneratedFun)

/-- The memoization key `f"{server_name}__{schema.get('name', '')}"`. -/
def cache_key (s : ToolSchema) (server : String) : String :=
  server ++ "__" ++ s.name

/-- Embeds `FunctionBuilder.create_function_from_schema`: on a cache hit
the entry is rebuilt and returned — the supplied schema is used only for
the key; on a miss the function is built from the supplied schema,
cached, and returned; a build failure is wrapped into `McpdError` and
nothing is cached. -/
def create_function_from_schema (st : FunctionBuilderState)
    (schema : ToolSchema) (server : String) :
    Except McpdErr GeneratedFun × FunctionBuilderState :=
  let key := cache_key schema server
  match st.cache.lookup key with
  | some cached => (.ok cached, st)
  | none =>
    match buildFunction schema server with
    | .ok f => (.ok f, ⟨st.cache ++ [(key, f)]⟩)
    | .error _ => (.error (.mcpdError ("Error creating function " ++ key)), st)

/-- Embeds `FunctionBuilder.clear_cache` (reached through
`McpdClient.clear_agent_tools_cache`). -/
def clear_cache (_st : FunctionBuilderState) : FunctionBuilderState :=
  ⟨[]⟩

/-- A server health record as returned by the daemon
(spec §3 HealthRecord; the client reads its "status" key). -/
structure HealthRecord where
  name : String
  status : String
  latency : Option Int
  lastChecked : Option String
  lastSuccessful : Option String
deriving DecidableEq

/-- Embeds `HealthStatus.is_healthy`. -/
def is_healthy (status : String) : Bool :=
  status == "ok"

/-- Embeds `HealthStatus.is_transient`. -/
def is_transient (status : String) : Bool :=
  status == "timeout" || status == "unknown"

/-- The client's collaborators as the embedded operations see them: what
`tools(server_name=...)` and `server_health(server_name=...)` produce
for each server — either a value or the `McpdError`-subclass failure the
HTTP layer translated the fault into.  A tool definition is its
dictionary (the existence check reads its "name" key). -/
structure ClientEnv where
  toolDefsResult : String → Except McpdErr (List (List (String × JVal)))
  healthResult : String → Except McpdErr HealthRecord

/-- Embeds `McpdClient.has_tool`: resolve the server's tool definitions
and test `any(tool.get("name") == tool_name ...)`; any `McpdError` from
the resolution reduces to `False`. -/
def has_tool (c : ClientEnv) (server tool : String) : Bool :=
  match c.toolDefsResult server with
  | .ok defs => defs.any (fun d =>
      match d.lookup "name" with
      | some (.str n) => n == tool
      | _ => false)
  | .error _ => false

/-- Embeds `McpdClient._raise_for_server_health`: fetch the server's
health and raise `ServerUnhealthyError` unless its status is healthy. -/
def raise_for_server_health (c : ClientEnv) (server : String) :
    Except McpdErr Unit :=
  match c.healthResult server with
  | .error e => .error e
  | .ok h =>
    if is_healthy h.status then .ok ()
    else .error (.serverUnhealthyError
      ("Server '" ++ server ++ "' is not healthy") server h.status)

/-- Embeds `McpdClient.is_server_healthy`: `True` unless
`_raise_for_server_health` raises an `McpdError`, which reduces to
`False`. -/
def is_server_healthy (c : ClientEnv) (server : String) : Bool :=
  match raise_for_server_health c server with
  | .ok _ => true
  | .error _ => false

/-- The `McpdError` raised by `ServerProxy.__getattr__` for an absent
tool. -/
def toolNotFoundError (server tool : String) : McpdErr :=
  .mcpdError ("Tool '" ++ tool ++ "' not found on server '" ++ server ++ "'")

/-- Embeds `ServerProxy.__getattr__` of `dynamic_caller.py`: attribute
access for `tool_name` checks `has_tool` first and raises `McpdError`
right there when the tool is absent; otherwise it returns the callable
that forwards its keyword arguments to
`client._perform_call(server, tool, kwargs)`. -/
def serverProxyGetattr (c : ClientEnv) (server tool : String) :
    Except McpdErr (List (String × JVal) → DelegatedCall) :=
  if has_tool c server tool then
    .ok (fun kwargs => ⟨server, tool, kwargs⟩)
  else
    .error (toolNotFoundError server tool)

/-- Modelled from the spec: the health-cache TTL configured at client
construction (spec §3/§4.4) — `0` never stores, a finite value expires
entries, `∞` stores until explicit invalidation.  The implementation of
the health cache is not in the sampled source tree. -/
inductive TTLConfig where
  | zero : TTLConfig
  | finite : Nat → TTLConfig
  | infinite : TTLConfig
deriving DecidableEq

/-- Modelled from the spec: the fixed cacheable-failure set
{ServerNotFound, ServerUnhealthy, AuthenticationFailed} (spec §4.4). -/
def cacheableFailure : McpdErr → Bool
  | .serverNotFoundError _ _ => true
  | .serverUnhealthyError _ _ _ => true
  | .authenticationError _ => true
  | _ => false

/-- Modelled from the spec: one health-cache entry — the stored outcome
(value or cacheable failure) and its expiry instant (`none` = never,
for TTL = ∞). -/
structure HealthCacheEntry where
  outcome : Except McpdErr HealthRecord
  expiresAt : Option Nat

/-- Modelled from the spec: the health cache's entries, keyed by server
name (spec §3 ServerHealthCacheEntry).  The 100-entry bound and its
eviction policy are left open by the spec (§9) and are not modelled;
no claim below depends on them. -/
structure HealthCacheState where
  entries : List (String × HealthCacheEntry)

/-- An entry is expired once the clock reaches its expiry instant;
a `none` expiry never expires. -/
def entryExpired (now : Nat) (e : HealthCacheEntry) : Bool :=
  match e.expiresAt with
  | none => false
  | some t => now ≥ t

/-- Insert (replacing any previous entry for the same server). -/
def insertEntry (st : HealthCacheState) (server : String)
    (e : HealthCacheEntry) : HealthCacheState :=
  ⟨(server, e) :: st.entries.filter (fun kv => kv.fst ≠ server)⟩

/-- The expiry instant a fresh entry receives under the given TTL. -/
def expiryFor (ttl : TTLConfig) (now : Nat) : Option Nat :=
  match ttl with
  | .finite n => some (now + n)
  | _ => none

/-- The result of one cached health lookup: the outcome returned to the
caller, the cache state afterwards, and how many network fetches the
lookup performed. -/
structure LookupResult where
  outcome : Except McpdErr HealthRecord
  state : HealthCacheState
  fetches : Nat

/-- Modelled from the spec (§4.4 Health Cache): a lookup returns an
unexpired cached outcome without fetching; otherwise it fetches, and
stores the result — unless the TTL is `0` (never store) or the fetch
failed with a non-cacheable error (never cached). -/
def cachedHealthLookup (ttl : TTLConfig)
    (fetch : String → Except McpdErr HealthRecord) (now : Nat)
    (st : HealthCacheState) (server : String) : LookupResult :=
  let hit : Option HealthCacheEntry :=
    match st.entries.lookup server with
    | some e => if entryExpired now e then none else some e
    | none => none
  match hit with
  | some e => ⟨e.outcome, st, 0⟩
  | none =>
    let r := fetch server
    let store : Bool :=
      match ttl, r with
      | .zero, _ => false
      | _, .ok _ => true
      | _, .error e => cacheableFailure e
    if store then ⟨r, insertEntry st server ⟨r, expiryFor ttl now⟩, 1⟩
    else ⟨r, st, 1⟩

/-- Modelled from the spec: invalidation removes the server's entry
(spec §4.4 `Invalidate`). -/
def invalidateEntry (st : HealthCacheState) (server : String) :
    HealthCacheState :=
  ⟨st.entries.filter (fun kv => kv.fst ≠ server)⟩

/-- An outcome the cache is allowed to remember: a value, or a failure
from the cacheable set. -/
def isCacheableOutcome : Except McpdErr HealthRecord → Bool
  | .ok _ => true
  | .error e => cacheableFailure e

/-- A resolved tool as the resolution policy returns it (spec §3
GeneratedTool metadata; the callable itself is synthesized by
`create_function_from_schema`). -/
structure GeneratedToolMeta where
  qualifiedName : String
  serverName : String
  toolName : String
  schema : ToolSchema

/-- The synthesis step of resolution: qualified name, owning server,
tool name, schema. -/
def synthesizeMeta (server : String) (s : ToolSchema) : GeneratedToolMeta :=
  ⟨server ++ "__" ++ s.name, server, s.name, s⟩

/-- Modelled from the spec: the collaborators the resolution policy
consumes (spec §1): server listing, per-server tool definitions, and
per-server health. -/
structure ResolveEnv where
  listServers : Except McpdErr (List String)
  toolDefinitions : String → Except McpdErr (List ToolSchema)
  serverHealth : String → Except McpdErr HealthRecord

/-- Modelled from the spec (§4.5 step 2, health gate): fetch health for
each selected server, keep those whose status is "ok"; a health-lookup
failure propagates. -/
def healthSurvivors (env : ResolveEnv) : List String → Except McpdErr (List String)
  | [] => .ok []
  | s :: rest =>
    match env.serverHealth s with
    | .error e => .error e
    | .ok h =>
      match healthSurvivors env rest with
      | .error e => .error e
      | .ok others => .ok (if is_healthy h.status then s :: others else others)

/-- Modelled from the spec (§4.5 step 3, tool materialization): for every
surviving server fetch its tool definitions and synthesize each;
ordering follows server iteration order, then per-server definition
order. -/
def materializeTools (env : ResolveEnv) : List String → Except McpdErr (List GeneratedToolMeta)
  | [] => .ok []
  | s :: rest =>
    match env.toolDefinitions s with
    | .error e => .error e
    | .ok defs =>
      match materializeTools env rest with
      | .error e => .error e
      | .ok others => .ok (defs.map (synthesizeMeta s) ++ others)

/-- Modelled from the spec (§4.5 step 4, name filter): keep a tool whose
bare name or qualified name is listed; whole-string comparison. -/
def nameFilterKeep (toolsFilter : List String) (g : GeneratedToolMeta) : Bool :=
  toolsFilter.contains g.toolName || toolsFilter.contains g.qualifiedName

/-- Modelled from the spec: `ResolveTools(servers?, tools?, checkHealth)`
(spec §4.5) — the repository realizes this as the parametrized
`McpdClient.agent_tools`, whose implementation is not in the sampled
source tree (only its unit tests are).  Step 1 server selection with
the empty-list short-circuit, step 2 health gate, step 3 materialization,
step 4 name filter, step 5 ordering. -/
def resolveTools (env : ResolveEnv) (serversFilter : Option (List String))
    (toolsFilter : Option (List String)) (checkHealth : Bool) :
    Except McpdErr (List GeneratedToolMeta) :=
  match serversFilter with
  | some [] => .ok []
  | _ =>
    let selectedE : Except McpdErr (List String) :=
      match serversFilter with
      | none => env.listServers
      | some l => .ok l
    match selectedE with
    | .error e => .error e
    | .ok selected =>
      let survivingE :=
        if checkHealth then healthSurvivors env selected else .ok selected
      match survivingE with
      | .error e => .error e
      | .ok surviving =>
        match materializeTools env surviving with
        | .error e => .error e
        | .ok allTools =>
          match toolsFilter with
          | none => .ok allTools
          | some ts => .ok (allTools.filter (nameFilterKeep ts))

deriving instance DecidableEq for Except

mutual

/-- A schema fragment on which the type converter cannot hit its one
failure point: every `anyOf` list is non-empty, recursively. -/
def wfFragment : SchemaF → Bool
  | .node _ _ it ao _ =>
    (match ao with
     | some alts => !alts.isEmpty && wfFragmentList alts
     | none => true) &&
    (match it with
     | some f => wfFragment f
     | none => true)
termination_by s => sizeOf s

/-- `wfFragment` over a list of fragments. -/
def wfFragmentList : List SchemaF → Bool
  | [] => true
  | s :: rest => wfFragment s && wfFragmentList rest
termination_by l => sizeOf l

end

/-- A schema fragment with none of the consulted keys. -/
def emptyFrag : SchemaF := .node none none none none none

/-- Fixture: interleaved optional and required properties. -/
def exSchemaMixed : ToolSchema :=
  ⟨"t", none,
   [("o1", emptyFrag), ("r1", emptyFrag), ("o2", emptyFrag), ("r2", emptyFrag)],
   ["r1", "r2"]⟩

/-- Fixture: a tool-definition dictionary list for server `math`. -/
def exToolDefs : List (List (String × JVal)) :=
  [[("name", .str "add"), ("description", .str "Add numbers")]]

/-- Fixture client collaborators: server `math` is present and healthy,
server `slow` reports status "timeout", anything else fails with
`ServerNotFoundError`. -/
def exClientEnv : ClientEnv :=
  ⟨fun s => if s == "math" then .ok exToolDefs
            else .error (.serverNotFoundError "Server not found" s),
   fun s => if s == "math" then .ok ⟨"math", "ok", none, none, none⟩
            else if s == "slow" then .ok ⟨"slow", "timeout", none, none, none⟩
            else .error (.serverNotFoundError "Server not found" s)⟩

/-- Fixture: a healthy record. -/
def exHealthOk : HealthRecord := ⟨"math", "ok", none, none, none⟩

/-- Fixture: a fetch that succeeds. -/
def exFetchOk : String → Except McpdErr HealthRecord := fun _ => .ok exHealthOk

/-- Fixture: a fetch that fails with a non-cacheable connection error
(used to show the second lookup does not fetch at all). -/
def exFetchBoom : String → Except McpdErr HealthRecord :=
  fun _ => .error (.connectionError "boom")

/-- Fixture: schema of tool `t1`. -/
def t1Schema : ToolSchema := ⟨"t1", none, [], []⟩

/-- Fixture: schema of tool `t2`. -/
def t2Schema : ToolSchema := ⟨"t2", none, [], []⟩

/-- Fixture resolution environment: server `healthy` with tool `t1` and
status "ok", server `unhealthy` with tool `t2` and status "timeout". -/
def exResolveEnv : ResolveEnv :=
  ⟨.ok ["healthy", "unhealthy"],
   fun s => if s == "healthy" then .ok [t1Schema] else .ok [t2Schema],
   fun s => if s == "healthy" then .ok ⟨s, "ok", none, none, none⟩
            else .ok ⟨s, "timeout", none, none, none⟩⟩

/-- Fixture: first version of a tool schema (no parameters). -/
def schemaV1 : ToolSchema := ⟨"tool", some "v1", [], []⟩

/-- Fixture: changed schema advertised later under the same tool name. -/
def schemaV2 : ToolSchema := ⟨"tool", some "v2", [], ["x"]⟩

/-- Fixture: builder state after synthesizing `schemaV1` once. -/
def exBuilderState : FunctionBuilderState :=
  (create_function_from_schema ⟨[]⟩ schemaV1 "srv").2

/-- Does an embedded Python computation finish without an exception? -/
def isOkE {ε α : Type} : Except ε α → Bool
  | .ok _ => true
  | .error _ => false

/-- Fixture: the generated function built from `schemaV1` (as
`buildFunction` produces it). -/
def fV1 : GeneratedFun :=
  ⟨"srv" ++ "__" ++ schemaV1.name, create_docstring schemaV1,
   [("return", PyType.pyAny)], schemaV1, "srv"⟩

/-- Fixture: the generated function built from `schemaV2`. -/
def fV2 : GeneratedFun :=
  ⟨"srv" ++ "__" ++ schemaV2.name, create_docstring schemaV2,
   [("return", PyType.pyAny)], schemaV2, "srv"⟩

theorem mem_of_lookup_eq_some [BEq α] [LawfulBEq α] {l : List (α × β)} {k : α}
    {v : β} (h : l.lookup k = some v) : (k, v) ∈ l := by
  induction l with
  | nil => simp [List.lookup] at h
  | cons kv rest ih =>
    obtain ⟨k', v'⟩ := kv
    rw [List.lookup_cons] at h
    by_cases hk : k == k'
    · simp only [hk] at h
      cases h
      exact (eq_of_beq hk) ▸ List.mem_cons_self _ _
    · simp only [Bool.not_eq_true] at hk
      simp only [hk] at h
      exact List.mem_cons_of_mem _ (ih h)

/-- C5: for every server and tool name, proxy attribute access
(`call.<server>.<tool>`) checks `has_tool` before returning anything: if
the tool is absent the tool-not-found `McpdError` is raised at attribute
resolution itself, and only for a present tool is a callable returned —
one that forwards its keyword arguments verbatim to
`_perform_call(server, tool, kwargs)`. -/
theorem c5_proxy_resolves_eagerly (c : ClientEnv) (server tool : String) :
    (has_tool c server tool = false →
      serverProxyGetattr c server tool = .error (toolNotFoundError server tool)) ∧
    (has_tool c server tool = true →
      ∃ f, serverProxyGetattr c server tool = .ok f ∧
        ∀ kwargs, f kwargs = ⟨server, tool, kwargs⟩) := by
  constructor
  · intro h; simp [serverProxyGetattr, h]
  · intro h
    refine ⟨fun kwargs => ⟨server, tool, kwargs⟩, ?_, fun _ => rfl⟩
    simp [serverProxyGetattr, h]

theorem c5_witness :
    serverProxyGetattr exClientEnv "math" "nope" =
      .error (toolNotFoundError "math" "nope") ∧
    ∃ f, serverProxyGetattr exClientEnv "math" "add" = .ok f ∧
      ∀ kwargs, f kwargs = ⟨"math", "add", kwargs⟩ :=
  ⟨(c5_proxy_resolves_eagerly exClientEnv "math" "nope").1 (by decide),
   (c5_proxy_resolves_eagerly exClientEnv "math" "add").2 (by decide)⟩

/-- C6: `has_tool` and `is_server_healthy` are total boolean checks that
convert every failure of the underlying resolution into `false`: an
error resolving the server's tool definitions makes `has_tool` answer
`false`, and an error fetching health makes `is_server_healthy` answer
`false`; on success they answer from the fetched data (name match
resp. status = "ok"). -/
theorem c6_failures_reduce_to_false (c : ClientEnv) (server tool : String) :
    (∀ e, c.toolDefsResult server = .error e → has_tool c server tool = false) ∧
    (∀ defs, c.toolDefsResult server = .ok defs →
      has_tool c server tool = defs.any (fun d =>
        match d.lookup "name" with
        | some (.str n) => n == tool
        | _ => false)) ∧
    (∀ e, c.healthResult server = .error e → is_server_healthy c server = false) ∧
    (∀ h, c.healthResult server = .ok h →
      is_server_healthy c server = is_healthy h.status) := by
  refine ⟨?_, ?_, ?_, ?_⟩
  · intro e he; simp [has_tool, he]
  · intro defs hd; simp [has_tool, hd]
  · intro e he; simp [is_server_healthy, raise_for_server_health, he]
  · intro h hh
    simp only [is_server_healthy, raise_for_server_health, hh]
    by_cases hst : is_healthy h.status <;> simp [hst]

theorem c6_witness :
    has_tool exClientEnv "gone" "add" = false ∧
    has_tool exClientEnv "math" "add" = true ∧
    is_server_healthy exClientEnv "gone" = false ∧
    is_server_healthy exClientEnv "slow" = false ∧
    is_server_healthy exClientEnv "math" = true := by
  refine ⟨(c6_failures_reduce_to_false exClientEnv "gone" "add").1
            (.serverNotFoundError "Server not found" "gone") rfl,
          ?_, ?_, ?_, ?_⟩
  · rw [(c6_failures_reduce_to_false exClientEnv "math" "add").2.1 exToolDefs rfl]
    decide
  · exact (c6_failures_reduce_to_false exClientEnv "gone" "add").2.2.1
      (.serverNotFoundError "Server not found" "gone") rfl
  · rw [(c6_failures_reduce_to_false exClientEnv "slow" "add").2.2.2
      ⟨"slow", "timeout", none, none, none⟩ rfl]
    decide
  · rw [(c6_failures_reduce_to_false exClientEnv "math" "add").2.2.2
      ⟨"math", "ok", none, none, none⟩ rfl]
    decide

/-- C10: once the synthesizer cache holds an entry for a server+tool
key, any later `create_function_from_schema` call whose schema produces
that key returns the cached (originally compiled) function and leaves
the state untouched — the newly supplied schema is ignored beyond its
name; only after `clear_cache` does a call rebuild from the supplied
schema and repopulate the cache. -/
theorem c10_cache_shadows_new_schema (st : FunctionBuilderState)
    (s1 s2 : ToolSchema) (server : String) (f : GeneratedFun)
    (hkey : cache_key s2 server = cache_key s1 server)
    (hhit : st.cache.lookup (cache_key s1 server) = some f) :
    create_function_from_schema st s1 server = (.ok f, st) ∧
    create_function_from_schema st s2 server = (.ok f, st) ∧
    (clear_cache st).cache.lookup (cache_key s2 server) = none ∧
    (∀ g, buildFunction s2 server = .ok g →
      create_function_from_schema (clear_cache st) s2 server =
        (.ok g, ⟨[(cache_key s2 server, g)]⟩)) := by
  refine ⟨?_, ?_, rfl, ?_⟩
  · simp [create_function_from_schema, hhit]
  · simp [create_function_from_schema, hkey, hhit]
  · intro g hg
    simp [create_function_from_schema, clear_cache, List.lookup, hg]

theorem filter_self_filter (l : List String) (p : String → Bool) :
    (l.filter p).filter p = l.filter p := by
  rw [List.filter_filter]; simp

theorem filter_pos_of_neg (l : List String) (p : String → Bool) :
    (l.filter (fun x => !p x)).filter p = [] := by
  rw [List.filter_eq_nil_iff]
  intro a ha
  simp only [List.mem_filter, Bool.not_eq_true'] at ha
  simp [ha.2]

theorem filter_neg_of_pos (l : List String) (p : String → Bool) :
    (l.filter p).filter (fun x => !p x) = [] := by
  rw [List.filter_eq_nil_iff]
  intro a ha
  simp only [List.mem_filter] at ha
  simp [ha.2]

/-- C7: the synthesized call signature places the required parameters
(those of `inputSchema.required` among the properties) before all
optional ones — any index holding a required name is smaller than any
index holding an optional name — the signature is a permutation of the
property keys, and within each of the two groups the original
`properties` insertion order is preserved (each group equals the
order-preserving filter of the property keys). -/
theorem c7_required_first_order_preserved (s : ToolSchema) :
    (sorted_param_names s).filter (fun p => s.required.contains p) =
      (s.properties.map Prod.fst).filter (fun p => s.required.contains p) ∧
    (sorted_param_names s).filter (fun p => !(s.required.contains p)) =
      (s.properties.map Prod.fst).filter (fun p => !(s.required.contains p)) ∧
    (sorted_param_names s).Perm (s.properties.map Prod.fst) ∧
    (∀ i j, ∀ hi : i < (sorted_param_names s).length,
       ∀ hj : j < (sorted_param_names s).length,
       s.required.contains ((sorted_param_names s).get ⟨i, hi⟩) = true →
       s.required.contains ((sorted_param_names s).get ⟨j, hj⟩) = false →
       i < j) := by
  refine ⟨?_, ?_, ?_, ?_⟩
  · rw [sorted_param_names, List.filter_append, filter_self_filter,
        filter_pos_of_neg, List.append_nil]
  · rw [sorted_param_names, List.filter_append, filter_neg_of_pos,
        filter_self_filter, List.nil_append]
  · exact List.filter_append_perm _ _
  · intro i j hi hj hPi hPj
    set A := (s.properties.map Prod.fst).filter (fun p => s.required.contains p)
      with hAdef
    set B := (s.properties.map Prod.fst).filter (fun p => !(s.required.contains p))
      with hBdef
    have hsig : sorted_param_names s = A ++ B := rfl
    have hlen : (sorted_param_names s).length = A.length + B.length := by
      rw [hsig, List.length_append]
    have hiA : i < A.length := by
      by_contra hge
      push_neg at hge
      have hib : i - A.length < B.length := by omega
      have hgr : (sorted_param_names s).get ⟨i, hi⟩ =
          B.get ⟨i - A.length, hib⟩ := by
        simp only [hsig, List.get_eq_getElem]
        exact List.getElem_append_right hge
      have hmem : B.get ⟨i - A.length, hib⟩ ∈ B := List.get_mem B _ hib
      rw [← hgr] at hmem
      have := (List.mem_filter.mp hmem).2
      simp only [Bool.not_eq_true'] at this
      rw [hPi] at this
      exact absurd this (by simp)
    have hjB : A.length ≤ j := by
      by_contra hlt
      push_neg at hlt
      have hgr : (sorted_param_names s).get ⟨j, hj⟩ = A.get ⟨j, hlt⟩ := by
        simp only [hsig, List.get_eq_getElem]
        exact List.getElem_append_left hlt
      have hmem : A.get ⟨j, hlt⟩ ∈ A := List.get_mem A _ hlt
      rw [← hgr] at hmem
      have := (List.mem_filter.mp hmem).2
      rw [hPj] at this
      exact absurd this (by simp)
    omega

theorem c7_witness :
    sorted_param_names exSchemaMixed = ["r1", "r2", "o1", "o2"] ∧ (0 : Nat) < 2 :=
  ⟨by decide,
   (c7_required_first_order_preserved exSchemaMixed).2.2.2 0 2
     (by decide) (by decide) (by decide) (by decide)⟩

theorem lookup_insertEntry (st : HealthCacheState) (server : String)
    (e : HealthCacheEntry) :
    (insertEntry st server e).entries.lookup server = some e := by
  simp [insertEntry, List.lookup_cons]

/-- C2: with the health-cache TTL configured to ∞, if a lookup's outcome
is storable (a value or a cacheable failure), then a second lookup for
the same server on the resulting state — at any later clock value and
whatever the network would now answer — performs zero fetches, leaves
the state unchanged, and returns the same outcome as the first lookup. -/
theorem c2_infinite_ttl_caches_outcome
    (fetch fetch2 : String → Except McpdErr HealthRecord) (now now2 : Nat)
    (st : HealthCacheState) (server : String)
    (hst : ∀ kv ∈ st.entries, kv.2.expiresAt = none)
    (hout : isCacheableOutcome
      (cachedHealthLookup .infinite fetch now st server).outcome = true) :
    cachedHealthLookup .infinite fetch2 now2
        (cachedHealthLookup .infinite fetch now st server).state server =
      ⟨(cachedHealthLookup .infinite fetch now st server).outcome,
       (cachedHealthLookup .infinite fetch now st server).state, 0⟩ := by
  cases hlk : st.entries.lookup server with
  | some e =>
    have hexp : e.expiresAt = none :=
      hst (server, e) (mem_of_lookup_eq_some hlk)
    have hne : entryExpired now e = false := by
      simp [entryExpired, hexp]
    have hne2 : entryExpired now2 e = false := by
      simp [entryExpired, hexp]
    have hfirst : cachedHealthLookup .infinite fetch now st server =
        ⟨e.outcome, st, 0⟩ := by
      simp [cachedHealthLookup, hlk, hne]
    rw [hfirst]
    simp [cachedHealthLookup, hlk, hne2]
  | none =>
    have hstore : (match TTLConfig.infinite, fetch server with
        | TTLConfig.zero, _ => false
        | _, .ok _ => true
        | _, .error e => cacheableFailure e) = true := by
      cases hf : fetch server with
      | ok v => rfl
      | error e =>
        have : (cachedHealthLookup .infinite fetch now st server).outcome =
            .error e := by
          simp [cachedHealthLookup, hlk, hf]
          split <;> rfl
        rw [this] at hout
        simpa [isCacheableOutcome] using hout
    have hfirst : cachedHealthLookup .infinite fetch now st server =
        ⟨fetch server,
         insertEntry st server ⟨fetch server, expiryFor .infinite now⟩, 1⟩ := by
      simp [cachedHealthLookup, hlk, hstore]
    rw [hfirst]
    simp only [cachedHealthLookup,
      lookup_insertEntry st server ⟨fetch server, expiryFor .infinite now⟩]
    simp [entryExpired, expiryFor]

theorem c2_witness :
    cachedHealthLookup .infinite exFetchBoom 100
        (cachedHealthLookup .infinite exFetchOk 0 ⟨[]⟩ "math").state "math" =
      ⟨(cachedHealthLookup .infinite exFetchOk 0 ⟨[]⟩ "math").outcome,
       (cachedHealthLookup .infinite exFetchOk 0 ⟨[]⟩ "math").state, 0⟩ :=
  c2_infinite_ttl_caches_outcome exFetchOk exFetchBoom 0 100 ⟨[]⟩ "math"
    (by intro kv hkv; exact absurd hkv (List.not_mem_nil kv)) (by decide)

theorem healthSurvivors_ok_mem (env : ResolveEnv) :
    ∀ (l surv : List String), healthSurvivors env l = .ok surv →
      ∀ s ∈ surv, ∃ h, env.serverHealth s = .ok h ∧ is_healthy h.status = true := by
  intro l
  induction l with
  | nil =>
    intro surv hs s hmem
    simp only [healthSurvivors] at hs
    injection hs with hs'
    rw [← hs'] at hmem
    exact absurd hmem (List.not_mem_nil s)
  | cons a rest ih =>
    intro surv hs s hmem
    simp only [healthSurvivors] at hs
    cases hha : env.serverHealth a with
    | error e => rw [hha] at hs; exact absurd hs (by simp)
    | ok h =>
      rw [hha] at hs
      cases hrest : healthSurvivors env rest with
      | error e => rw [hrest] at hs; exact absurd hs (by simp)
      | ok others =>
        rw [hrest] at hs
        injection hs with hs'
        rw [← hs'] at hmem
        by_cases hh : is_healthy h.status
        · rw [if_pos hh] at hmem
          rcases List.mem_cons.mp hmem with rfl | hmem'
          · exact ⟨h, hha, hh⟩
          · exact ih others hrest s hmem'
        · rw [if_neg hh] at hmem
          exact ih others hrest s hmem

theorem materializeTools_ok_server (env : ResolveEnv) :
    ∀ (l : List String) (ts : List GeneratedToolMeta),
      materializeTools env l = .ok ts → ∀ g ∈ ts, g.serverName ∈ l := by
  intro l
  induction l with
  | nil =>
    intro ts hts g hg
    simp only [materializeTools] at hts
    injection hts with hts'
    rw [← hts'] at hg
    exact absurd hg (List.not_mem_nil g)
  | cons a rest ih =>
    intro ts hts g hg
    simp only [materializeTools] at hts
    cases hda : env.toolDefinitions a with
    | error e => rw [hda] at hts; exact absurd hts (by simp)
    | ok defs =>
      rw [hda] at hts
      cases hrest : materializeTools env rest with
      | error e => rw [hrest] at hts; exact absurd hts (by simp)
      | ok others =>
        rw [hrest] at hts
        injection hts with hts'
        rw [← hts'] at hg
        rcases List.mem_append.mp hg with hg' | hg'
        · rcases List.mem_map.mp hg' with ⟨d, _, rfl⟩
          exact List.mem_cons_self a rest
        · exact List.mem_cons_of_mem a (ih others hrest g hg')

/-- C3: with health checking enabled and no filters, every tool the
resolution returns belongs to a server whose fetched health status is
"ok" — servers with any other status are dropped before their tools are
materialized; in particular, against servers `healthy` (tool `t1`,
status "ok") and `unhealthy` (tool `t2`, status "timeout") exactly the
tool of `healthy` is returned. -/
theorem c3_health_gate_drops_unhealthy :
    (∀ (env : ResolveEnv) (gs : List GeneratedToolMeta),
      resolveTools env none none true = .ok gs →
      ∀ g ∈ gs, ∃ h, env.serverHealth g.serverName = .ok h ∧
        is_healthy h.status = true) ∧
    resolveTools exResolveEnv none none true =
      .ok [⟨"healthy__t1", "healthy", "t1", t1Schema⟩] := by
  constructor
  · intro env gs hres g hg
    simp only [resolveTools] at hres
    cases hls : env.listServers with
    | error e => rw [hls] at hres; exact absurd hres (by simp)
    | ok selected =>
      rw [hls] at hres
      simp only [if_true] at hres
      cases hsv : healthSurvivors env selected with
      | error e => rw [hsv] at hres; exact absurd hres (by simp)
      | ok surviving =>
        rw [hsv] at hres
        dsimp only at hres
        cases hmt : materializeTools env surviving with
        | error e => rw [hmt] at hres; exact absurd hres (by simp)
        | ok allTools =>
          rw [hmt] at hres
          injection hres with hres'
          rw [← hres'] at hg
          have hsrv : g.serverName ∈ surviving :=
            materializeTools_ok_server env surviving allTools hmt g hg
          exact healthSurvivors_ok_mem env selected surviving hsv
            g.serverName hsrv
  · rfl

theorem c3_witness :
    ∃ h, exResolveEnv.serverHealth "healthy" = .ok h ∧
      is_healthy h.status = true := by
  have hg := c3_health_gate_drops_unhealthy.1 exResolveEnv
    [⟨"healthy__t1", "healthy", "t1", t1Schema⟩]
    c3_health_gate_drops_unhealthy.2
    ⟨"healthy__t1", "healthy", "t1", t1Schema⟩ (List.mem_cons_self _ _)
  exact hg

theorem parseAnyOfAlts_length :
    ∀ (l : List SchemaF) (ts : List PyType),
      parseAnyOfAlts l = .ok ts → ts.length = l.length := by
  intro l
  induction l with
  | nil =>
    intro ts h
    simp only [parseAnyOfAlts] at h
    injection h with h'
    rw [← h']
    rfl
  | cons s rest ih =>
    intro ts h
    simp only [parseAnyOfAlts] at h
    cases hp : parse_schema_type s with
    | error e => rw [hp] at h; exact absurd h (by simp)
    | ok t =>
      rw [hp] at h
      cases hr : parseAnyOfAlts rest with
      | error e => rw [hr] at h; exact absurd h (by simp)
      | ok ts' =>
        rw [hr] at h
        injection h with h'
        rw [← h']
        simp [ih ts' hr]

mutual

theorem parse_schema_type_total : ∀ s : SchemaF, wfFragment s = true →
    isOkE (parse_schema_type s) = true
  | .node ty en it ao d => fun h => by
    unfold wfFragment at h
    simp only [Bool.and_eq_true] at h
    obtain ⟨hao, hit⟩ := h
    cases ao with
    | some alts =>
      simp only [parse_schema_type]
      simp only [Bool.and_eq_true] at hao
      obtain ⟨hne, hwfl⟩ := hao
      have htot := parseAnyOfAlts_total alts hwfl
      cases hres : parseAnyOfAlts alts with
      | error e => rw [hres] at htot; exact absurd htot (by simp [isOkE])
      | ok ts =>
        cases ts with
        | nil =>
          have hlen := parseAnyOfAlts_length alts [] hres
          simp only [List.length_nil] at hlen
          have : alts = [] := List.eq_nil_of_length_eq_zero hlen.symm
          rw [this] at hne
          simp at hne
        | cons t ts' => simp [hres, isOkE]
    | none =>
      cases ty with
      | none => simp [parse_schema_type, isOkE]
      | some jt =>
        simp only [parse_schema_type]
        unfold json_type_to_python_type
        split_ifs with hs hn hi hb ha ho
        · cases en with
          | some vals =>
            by_cases hv : vals.all JVal.hashable <;> simp [hv, isOkE]
          | none => simp [isOkE]
        · simp [isOkE]
        · simp [isOkE]
        · simp [isOkE]
        · cases it with
          | some itemsSchema =>
            simp only at hit
            have htot := parse_schema_type_total itemsSchema hit
            cases hres : parse_schema_type itemsSchema with
            | error e => rw [hres] at htot; exact absurd htot (by simp [isOkE])
            | ok t => simp [hres, isOkE]
          | none => simp [isOkE]
        · simp [isOkE]
        · simp [isOkE]
termination_by s => sizeOf s

theorem parseAnyOfAlts_total : ∀ l : List SchemaF, wfFragmentList l = true →
    isOkE (parseAnyOfAlts l) = true
  | [] => fun _ => by simp [parseAnyOfAlts, isOkE]
  | s :: rest => fun h => by
    unfold wfFragmentList at h
    simp only [Bool.and_eq_true] at h
    obtain ⟨hs, hrest⟩ := h
    have h1 := parse_schema_type_total s hs
    have h2 := parseAnyOfAlts_total rest hrest
    simp only [parseAnyOfAlts]
    cases hp : parse_schema_type s with
    | error e => rw [hp] at h1; exact absurd h1 (by simp [isOkE])
    | ok t =>
      cases hr : parseAnyOfAlts rest with
      | error e => rw [hr] at h2; exact absurd h2 (by simp [isOkE])
      | ok ts => simp [isOkE]
termination_by l => sizeOf l

end

theorem c10_witness :
    create_function_from_schema exBuilderState schemaV2 "srv" =
      (.ok fV1, exBuilderState) ∧
    create_function_from_schema (clear_cache exBuilderState) schemaV2 "srv" =
      (.ok fV2, ⟨[(cache_key schemaV2 "srv", fV2)]⟩) :=
  ⟨(c10_cache_shadows_new_schema exBuilderState schemaV1 schemaV2 "srv" fV1
      rfl rfl).2.1,
   (c10_cache_shadows_new_schema exBuilderState schemaV1 schemaV2 "srv" fV1
      rfl rfl).2.2.2 fV2 rfl⟩
